import Mathlib

/-!
Shallow embedding of the Concordium fungible token-staking contract
(`src/lib.rs`, contract "token-staking").

Machine integers (`u64`) are modelled as `Nat` with explicit wrapping
modulo `2^64` where the source performs `u64` arithmetic (release-profile
Rust wraps on overflow/underflow).  The `StateMap` is modelled as an
association list; `entry().or_insert_with(StakeState::empty)` becomes an
explicit get-or-create on that list.  External CIS2 contract calls
(`operatorOf`, `balanceOf`, `transfer`) are modelled by an oracle record
`ExtCalls` holding the parsed response (or the client error) each call
produces.  Handlers return the result value, the ledger state as mutated
by the handler body, and the list of transfer instructions issued.
-/

/-- Modulus of the `u64` machine integers used throughout the contract. -/
def U64 : Nat := 2 ^ 64

/-- Wrapping `u64` addition (`+=` on `total_staked`). -/
def wadd (a b : Nat) : Nat := (a + b) % U64

/-- Wrapping `u64` subtraction (`-=` on `total_staked`, `curr_time - staked_start_at`). -/
def wsub (a b : Nat) : Nat := (a + U64 - b % U64) % U64

/-- Wrapping `u64` multiplication (`amount * time` in `get_reward`). -/
def wmul (a b : Nat) : Nat := (a * b) % U64

/-- Source: `pub const SECOND_PER_YEAR: &u64 = &(365 * 24 * 60 * 60);`. -/
def SECOND_PER_YEAR : Nat := 365 * 24 * 60 * 60

abbrev AccountAddress := Nat

abbrev ContractAddress := Nat

/-- Concordium `Address`: an account or a contract. -/
inductive Address where
  | account (a : AccountAddress)
  | contract (c : ContractAddress)
deriving DecidableEq

/-- Source: `Address::matches_account` — true iff the address is exactly
`Address::Account(acc)`. -/
def Address.matchesAccount : Address → AccountAddress → Bool
  | .account a, acc => a == acc
  | .contract _, _ => false

/-- Source struct `StakeState { amount: u64, staked_start_at: u64 }`. -/
structure StakeState where
  amount : Nat
  staked_start_at : Nat
deriving DecidableEq

/-- Source: `StakeState::empty()` — both fields zero. -/
def StakeState.empty : StakeState := ⟨0, 0⟩

/-- Lookup in the `StateMap` modelled as an association list: the value at
the first entry whose key matches. -/
def mapGet : List (AccountAddress × StakeState) → AccountAddress → Option StakeState
  | [], _ => none
  | (k', v') :: rest, k => if k' == k then some v' else mapGet rest k

/-- Write-through for the `StateMap`: replace the first entry with key `k`,
or append a fresh entry when none exists (the `entry().or_insert_with`
pattern followed by field assignment). -/
def mapSet (m : List (AccountAddress × StakeState)) (k : AccountAddress)
    (v : StakeState) : List (AccountAddress × StakeState) :=
  match m with
  | [] => [(k, v)]
  | (k', v') :: rest =>
    if k' == k then (k, v) :: rest else (k', v') :: mapSet rest k v

/-- Source struct `State { stake: StateMap<AccountAddress, StakeState, S>,
total_staked: u64 }`. -/
structure State where
  stake : List (AccountAddress × StakeState)
  total_staked : Nat
deriving DecidableEq

/-- Source: `State::empty` — no stake records, `total_staked = 0`. -/
def State.emptyState : State := ⟨[], 0⟩

/-- Source enum `Cis2ClientError`. -/
inductive Cis2ClientError where
  | invokeContractError
  | parseParams
  | parseResult
deriving DecidableEq

/-- Source enum `CustomContractError`. -/
inductive CustomContractError where
  | parseParams
  | cis2ClientError (e : Cis2ClientError)
  | tokenNotFound
  | tokenAlreadyStaked
  | invokeContractError
  | noBalance
  | notOperator
deriving DecidableEq

/-- Source type `ContractError = Cis2Error<CustomContractError>` (the
CIS2 library error enum with the contract's custom errors plugged in). -/
inductive ContractError where
  | invalidTokenId
  | insufficientFunds
  | unauthorized
  | custom (c : CustomContractError)
deriving DecidableEq

/-- Source: `State::insert_token`.  Gets-or-creates the owner's record,
overwrites `amount` and `staked_start_at`, and does `total_staked += amount`
(wrapping `u64` add).  Always returns `Ok`. -/
def State.insert_token (st : State) (owner : AccountAddress)
    (amount staked_time : Nat) : Except ContractError State :=
  .ok { stake := mapSet st.stake owner
          { amount := amount, staked_start_at := staked_time },
        total_staked := wadd st.total_staked amount }

/-- Source: `State::remove_token`.  Gets-or-creates the owner's record,
does `total_staked -= owner_state.amount` (wrapping `u64` sub), then zeroes
both fields of the record.  Always returns `Ok`. -/
def State.remove_token (st : State) (owner : AccountAddress) :
    Except ContractError State :=
  let owner_state := (mapGet st.stake owner).getD StakeState.empty
  .ok { stake := mapSet st.stake owner StakeState.empty,
        total_staked := wsub st.total_staked owner_state.amount }

/-- Source: `State::get_time`.  Gets-or-creates the owner's record and
returns `(curr_time - owner_state.staked_start_at) / 1000` (wrapping `u64`
sub, integer division).  The get-or-create mutates the map when the record
was absent, so the (possibly extended) state is returned alongside. -/
def State.get_time (st : State) (owner : AccountAddress) (curr_time : Nat) :
    Nat × State :=
  let owner_state := (mapGet st.stake owner).getD StakeState.empty
  (wsub curr_time owner_state.staked_start_at / 1000,
   { st with stake := mapSet st.stake owner owner_state })

/-- Source: `State::get_reward`.  Gets-or-creates the owner's record and
returns `owner_state.amount * time / SECOND_PER_YEAR` (wrapping `u64`
multiply, integer division). -/
def State.get_reward (st : State) (owner : AccountAddress) (time : Nat) :
    Nat × State :=
  let owner_state := (mapGet st.stake owner).getD StakeState.empty
  (wmul owner_state.amount time / SECOND_PER_YEAR,
   { st with stake := mapSet st.stake owner owner_state })

/-- Parsed response (or client error) of each external CIS2 call a handler
may dispatch.  `invoke_contract_read_only` yields `InvokeContractError` on
dispatch failure or an absent response and `ParseResult` on undecodable
response; a successful call yields the parsed response payload. -/
structure ExtCalls where
  operatorOf : Except Cis2ClientError (List Bool)
  balanceOf : Except Cis2ClientError (List Nat)
  transfer : Except Cis2ClientError Unit

/-- Source: `Cis2Client::is_operator_of` — takes the first element of the
parsed `OperatorOfQueryResponse`, failing with `InvokeContractError` when
the response list is empty. -/
def Cis2Client.is_operator_of (ext : ExtCalls) : Except Cis2ClientError Bool :=
  match ext.operatorOf with
  | .error e => .error e
  | .ok l =>
    match l.head? with
    | none => .error .invokeContractError
    | some b => .ok b

/-- Source: `Cis2Client::has_balance` — takes the first element of the
parsed `BalanceOfQueryResponse` and compares it against the required
amount (`cmp(..).is_ge()`). -/
def Cis2Client.has_balance (ext : ExtCalls) (amount : Nat) :
    Except Cis2ClientError Bool :=
  match ext.balanceOf with
  | .error e => .error e
  | .ok l =>
    match l.head? with
    | none => .error .invokeContractError
    | some b => .ok (amount ≤ b)

/-- Source: `Cis2Client::transfer` — dispatches the transfer instruction
and returns `Ok(true)` when the call succeeded, propagating the client
error otherwise.  (Callers in the source ignore this result.) -/
def Cis2Client.transfer (ext : ExtCalls) : Except Cis2ClientError Bool :=
  match ext.transfer with
  | .error e => .error e
  | .ok _ => .ok true

/-- Source: `ensure_is_operator` — maps the client error into
`CustomContractError::Cis2ClientError` and turns a `false` answer into
`NotOperator`. -/
def ensure_is_operator (ext : ExtCalls) : Except CustomContractError Unit :=
  match Cis2Client.is_operator_of ext with
  | .error e => .error (.cis2ClientError e)
  | .ok is_op => if is_op then .ok () else .error .notOperator

/-- Source: `ensure_balance` — maps the client error into
`CustomContractError::Cis2ClientError` and turns a `false` answer into
`NoBalance`. -/
def ensure_balance (ext : ExtCalls) (amount : Nat) :
    Except CustomContractError Unit :=
  match Cis2Client.has_balance ext amount with
  | .error e => .error (.cis2ClientError e)
  | .ok has => if has then .ok () else .error .noBalance

/-- Receive-context data a handler reads from the host: `ctx.sender()`,
`ctx.metadata().slot_time()` in milliseconds, `ctx.self_address()`,
`ctx.owner()` (the account that created the contract instance) and
`ctx.invoker()`. -/
structure Ctx where
  sender : Address
  slotTimeMs : Nat
  selfAddr : ContractAddress
  ctxOwner : AccountAddress
  invoker : AccountAddress

/-- Source struct `StakeParams`. -/
structure StakeParams where
  owner : AccountAddress
  amount : Nat
  token_contract_address : ContractAddress
deriving DecidableEq

/-- Source struct `UnStakeParams`. -/
structure UnStakeParams where
  owner : AccountAddress
  token_contract_address : ContractAddress
deriving DecidableEq

/-- One transfer instruction issued via `Cis2Client::transfer`: token
contract, amount, `from = ctx.owner()`, `to = Receiver::Account(ctx.invoker())`. -/
structure TransferOut where
  token_contract : ContractAddress
  amount : Nat
  source : AccountAddress
  target : AccountAddress
deriving DecidableEq

/-- Source struct `ClaimParams` (same fields as `UnStakeParams`). -/
structure ClaimParams where
  owner : AccountAddress
  token_contract_address : ContractAddress
deriving DecidableEq

/-- Everything a handler invocation produces: the `ContractResult<()>`
value, the ledger state as left by the handler body, and the transfer
instructions it issued. -/
structure Outcome where
  result : Except ContractError Unit
  state : State
  transfers : List TransferOut

/-- Source: `calculate_reward` — reads the slot time, computes the elapsed
time via `State::get_time` and the reward via `State::get_reward`,
unwrapping both (they always return `Ok`); always returns `Ok(reward)`. -/
def calculate_reward (ctx : Ctx) (owner : AccountAddress) (st : State) :
    Nat × State :=
  let p := st.get_time owner ctx.slotTimeMs
  let q := p.2.get_reward owner p.1
  (q.1, q.2)

/-- Source: `stake_token` — authorize the caller as the claimed owner
(`Unauthorized` otherwise), then `ensure_balance` (`NoBalance`), then
`ensure_is_operator` (`NotOperator`), then `State::insert_token` at the
current slot time. -/
def stake_token (ctx : Ctx) (params : StakeParams) (ext : ExtCalls)
    (st : State) : Outcome :=
  if ctx.sender.matchesAccount params.owner then
    match ensure_balance ext params.amount with
    | .error e => ⟨.error (.custom e), st, []⟩
    | .ok _ =>
      match ensure_is_operator ext with
      | .error e => ⟨.error (.custom e), st, []⟩
      | .ok _ =>
        match st.insert_token params.owner params.amount ctx.slotTimeMs with
        | .error e => ⟨.error e, st, []⟩
        | .ok st1 => ⟨.ok (), st1, []⟩
  else ⟨.error .unauthorized, st, []⟩

/-- Source: `unstake_token` — authorize the caller as the claimed owner,
`State::remove_token`, then `calculate_reward` (on the already-zeroed
record) and a `Cis2Client::transfer` of the reward from `ctx.owner()` to
`ctx.invoker()`; the transfer's result is ignored and the handler returns
`Ok`. -/
def unstake_token (ctx : Ctx) (params : UnStakeParams) (ext : ExtCalls)
    (st : State) : Outcome :=
  if ctx.sender.matchesAccount params.owner then
    match st.remove_token params.owner with
    | .error e => ⟨.error e, st, []⟩
    | .ok st1 =>
      let r := calculate_reward ctx params.owner st1
      let _ := Cis2Client.transfer ext
      ⟨.ok (), r.2,
       [⟨params.token_contract_address, r.1, ctx.ctxOwner, ctx.invoker⟩]⟩
  else ⟨.error .unauthorized, st, []⟩

/-- Source: `claim_reward` — identical body to `unstake_token`, reading
its fields from a `ClaimParams` value instead. -/
def claim_reward (ctx : Ctx) (params : ClaimParams) (ext : ExtCalls)
    (st : State) : Outcome :=
  if ctx.sender.matchesAccount params.owner then
    match st.remove_token params.owner with
    | .error e => ⟨.error e, st, []⟩
    | .ok st1 =>
      let r := calculate_reward ctx params.owner st1
      let _ := Cis2Client.transfer ext
      ⟨.ok (), r.2,
       [⟨params.token_contract_address, r.1, ctx.ctxOwner, ctx.invoker⟩]⟩
  else ⟨.error .unauthorized, st, []⟩

/-- One invocation of a contract entry point, with the context and the
external-call responses it runs against. -/
inductive Op where
  | stake (ctx : Ctx) (p : StakeParams) (ext : ExtCalls)
  | unstake (ctx : Ctx) (p : UnStakeParams) (ext : ExtCalls)
  | claim (ctx : Ctx) (p : ClaimParams) (ext : ExtCalls)

/-- Host semantics of one invocation: a handler that returns `Err` has its
state changes rolled back by the Concordium host; an `Ok` commits the
handler's final state. -/
def runOp (st : State) (op : Op) : State :=
  let out := match op with
    | .stake c p e => stake_token c p e st
    | .unstake c p e => unstake_token c p e st
    | .claim c p e => claim_reward c p e st
  match out.result with
  | .ok _ => out.state
  | .error _ => st

/-- Sequential execution of a list of invocations. -/
def runTrace (st : State) : List Op → State
  | [] => st
  | op :: ops => runTrace (runOp st op) ops

/-- Sum of the recorded per-owner staked amounts (exact, unbounded). -/
def sumAmounts (m : List (AccountAddress × StakeState)) : Nat :=
  (m.map (fun p => p.2.amount)).sum

/-- Recorded staked amount of one owner (0 when no record exists). -/
def amountOf (st : State) (owner : AccountAddress) : Nat :=
  ((mapGet st.stake owner).getD StakeState.empty).amount

/-- Recorded staking start time of one owner (0 when no record exists). -/
def startOf (st : State) (owner : AccountAddress) : Nat :=
  ((mapGet st.stake owner).getD StakeState.empty).staked_start_at

/-- Per-step side condition under which the spec's `total_staked` invariant
is provable: a stake must target an owner whose recorded amount is
currently zero (first-time stake, or stake after unstake/claim), and the
staked amount must be a `u64` value. -/
def stakeFresh (st : State) : Op → Bool
  | .stake _ p _ => amountOf st p.owner == 0 && decide (p.amount < U64)
  | .unstake _ _ _ => true
  | .claim _ _ _ => true

/-- Per-step side condition under which `total_staked` arithmetic never
wraps: a stake must not push the running total past `2^64 - 1`. -/
def opNoOv (st : State) : Op → Bool
  | .stake _ p _ => decide (st.total_staked + p.amount < U64)
  | .unstake _ _ _ => true
  | .claim _ _ _ => true

/-- A per-step side condition holding along a whole trace. -/
def traceAll (cond : State → Op → Bool) : State → List Op → Bool
  | _, [] => true
  | st, op :: ops => cond st op && traceAll cond (runOp st op) ops

/-- Ledger invariant for the aggregate-total claim: every recorded amount
is a `u64` value and `total_staked` is the sum of the recorded amounts
reduced modulo `2^64`. -/
def LedgerInv (st : State) : Prop :=
  (∀ p ∈ st.stake, p.2.amount < U64) ∧
  st.total_staked = sumAmounts st.stake % U64

/-- Ledger invariant for the no-underflow claim: the sum of the recorded
amounts is bounded by `total_staked`, itself a `u64` value. -/
def BoundInv (st : State) : Prop :=
  sumAmounts st.stake ≤ st.total_staked ∧ st.total_staked < U64

/-- External responses in which every query succeeds: the contract is an
operator, the owner's balance is ample, and the transfer goes through. -/
def extAll : ExtCalls := ⟨.ok [true], .ok [U64], .ok ()⟩

/-- Receive context for account `a` at slot time `tms` (milliseconds):
`a` is both the sender and the invoker; the contract instance lives at
address 9 and was created by account 5. -/
def ctxAcc (a : AccountAddress) (tms : Nat) : Ctx := ⟨.account a, tms, 9, 5, a⟩

deriving instance DecidableEq for Except

/-- Numeric value of the `u64` modulus, for `omega`. -/
theorem U64_eq : U64 = 18446744073709551616 := by norm_num [U64]

theorem U64_pos : 0 < U64 := by norm_num [U64]

theorem mapGet_mapSet_self (m : List (AccountAddress × StakeState))
    (k : AccountAddress) (v : StakeState) : mapGet (mapSet m k v) k = some v := by
  induction m with
  | nil => simp [mapSet, mapGet]
  | cons hd tl ih =>
    obtain ⟨k', v'⟩ := hd
    by_cases h : k' = k
    · simp [mapSet, mapGet, h]
    · simp [mapSet, mapGet, h, ih]

theorem mapSet_mapSet (m : List (AccountAddress × StakeState))
    (k : AccountAddress) (v w : StakeState) :
    mapSet (mapSet m k v) k w = mapSet m k w := by
  induction m with
  | nil => simp [mapSet]
  | cons hd tl ih =>
    obtain ⟨k', v'⟩ := hd
    by_cases h : k' = k
    · simp [mapSet, h]
    · simp [mapSet, h, ih]

theorem mem_mapSet {m : List (AccountAddress × StakeState)}
    {k : AccountAddress} {v : StakeState} {p : AccountAddress × StakeState}
    (hp : p ∈ mapSet m k v) : p = (k, v) ∨ p ∈ m := by
  induction m with
  | nil => simpa [mapSet] using hp
  | cons hd tl ih =>
    obtain ⟨k', v'⟩ := hd
    by_cases h : k' = k
    · simp only [mapSet, h] at hp
      simp at hp
      rcases hp with hp | hp
      · exact Or.inl hp
      · exact Or.inr (List.mem_cons_of_mem _ hp)
    · simp only [mapSet, beq_iff_eq, h, if_false] at hp
      rcases List.mem_cons.mp hp with hp | hp
      · exact Or.inr (hp ▸ List.mem_cons_self _ _)
      · rcases ih hp with hp' | hp'
        · exact Or.inl hp'
        · exact Or.inr (List.mem_cons_of_mem _ hp')

theorem sumAmounts_mapSet (m : List (AccountAddress × StakeState))
    (k : AccountAddress) (v : StakeState) :
    sumAmounts (mapSet m k v) + ((mapGet m k).getD StakeState.empty).amount
      = sumAmounts m + v.amount := by
  induction m with
  | nil => simp [mapSet, mapGet, sumAmounts, StakeState.empty]
  | cons hd tl ih =>
    obtain ⟨k', v'⟩ := hd
    by_cases h : k' = k
    · simp [mapSet, mapGet, sumAmounts, h]
      omega
    · simp only [mapSet, mapGet, beq_iff_eq, h, if_false] at *
      simp [sumAmounts] at ih ⊢
      omega

theorem mapGet_mem {m : List (AccountAddress × StakeState)}
    {k : AccountAddress} {v : StakeState} (h : mapGet m k = some v) :
    (k, v) ∈ m := by
  induction m with
  | nil => simp [mapGet] at h
  | cons hd tl ih =>
    obtain ⟨k', v'⟩ := hd
    by_cases hk : k' = k
    · simp [mapGet, hk] at h
      simp [hk, h]
    · simp only [mapGet, beq_iff_eq, hk, if_false] at h
      exact List.mem_cons_of_mem _ (ih h)

theorem amount_mem_le_sum {m : List (AccountAddress × StakeState)}
    {p : AccountAddress × StakeState} (hp : p ∈ m) :
    p.2.amount ≤ sumAmounts m := by
  induction m with
  | nil => simp at hp
  | cons hd tl ih =>
    rcases List.mem_cons.mp hp with hp | hp
    · simp [sumAmounts, hp]
    · have := ih hp
      simp [sumAmounts] at this ⊢
      omega

theorem amountOf_le_sum (st : State) (o : AccountAddress) :
    amountOf st o ≤ sumAmounts st.stake := by
  unfold amountOf
  cases h : mapGet st.stake o with
  | none => simp [StakeState.empty]
  | some v => simpa using amount_mem_le_sum (mapGet_mem h)

theorem amountOf_lt (st : State) (o : AccountAddress)
    (hmem : ∀ p ∈ st.stake, p.2.amount < U64) : amountOf st o < U64 := by
  unfold amountOf
  cases h : mapGet st.stake o with
  | none => simpa [StakeState.empty] using U64_pos
  | some v => simpa using hmem (o, v) (mapGet_mem h)

/-- Closed form of `unstake_token`: on authorization it always succeeds,
zeroes the owner's record, decrements `total_staked` by the recorded
amount, and — because `remove_token` zeroed the record before
`calculate_reward` reads it — issues the payout transfer with amount 0. -/
theorem unstake_token_eq (c : Ctx) (p : UnStakeParams) (e : ExtCalls)
    (st : State) :
    unstake_token c p e st =
      if c.sender.matchesAccount p.owner then
        ⟨.ok (),
         ⟨mapSet st.stake p.owner StakeState.empty,
          wsub st.total_staked (amountOf st p.owner)⟩,
         [⟨p.token_contract_address, 0, c.ctxOwner, c.invoker⟩]⟩
      else ⟨.error .unauthorized, st, []⟩ := by
  unfold unstake_token
  split
  · simp only [State.remove_token, calculate_reward, State.get_time,
      State.get_reward, mapGet_mapSet_self, mapSet_mapSet, amountOf]
    simp [StakeState.empty, wmul, U64, Nat.zero_div]
  · rfl

/-- Identity of the `claim_reward` and `unstake_token` bodies, up to the
renaming of the parameter struct. -/
theorem claim_reward_eq_unstake (c : Ctx) (p : ClaimParams) (e : ExtCalls)
    (st : State) :
    claim_reward c p e st =
      unstake_token c ⟨p.owner, p.token_contract_address⟩ e st := rfl

theorem runOp_unstake (c : Ctx) (p : UnStakeParams) (e : ExtCalls)
    (st : State) :
    runOp st (.unstake c p e) =
      if c.sender.matchesAccount p.owner then
        ⟨mapSet st.stake p.owner StakeState.empty,
         wsub st.total_staked (amountOf st p.owner)⟩
      else st := by
  by_cases h : c.sender.matchesAccount p.owner <;>
    simp [runOp, unstake_token_eq, h]

theorem runOp_claim (c : Ctx) (p : ClaimParams) (e : ExtCalls) (st : State) :
    runOp st (.claim c p e) =
      if c.sender.matchesAccount p.owner then
        ⟨mapSet st.stake p.owner StakeState.empty,
         wsub st.total_staked (amountOf st p.owner)⟩
      else st := by
  by_cases h : c.sender.matchesAccount p.owner <;>
    simp [runOp, claim_reward_eq_unstake, unstake_token_eq, h]

theorem runOp_stake (c : Ctx) (p : StakeParams) (e : ExtCalls) (st : State) :
    runOp st (.stake c p e) = st ∨
      runOp st (.stake c p e) =
        ⟨mapSet st.stake p.owner ⟨p.amount, c.slotTimeMs⟩,
         wadd st.total_staked p.amount⟩ := by
  by_cases h : c.sender.matchesAccount p.owner
  · cases hb : ensure_balance e p.amount with
    | error er => exact Or.inl (by simp [runOp, stake_token, h, hb])
    | ok u =>
      cases ho : ensure_is_operator e with
      | error er => exact Or.inl (by simp [runOp, stake_token, h, hb, ho])
      | ok u2 =>
        exact Or.inr
          (by simp [runOp, stake_token, State.insert_token, h, hb, ho])
  · exact Or.inl (by simp [runOp, stake_token, h])

/-- Host-level induction along a trace: a state predicate preserved by
every step satisfying a side condition holds after any conforming trace. -/
theorem traceAll_invariant {P : State → Prop} (cond : State → Op → Bool)
    (step : ∀ st op, P st → cond st op = true → P (runOp st op)) :
    ∀ ops st, P st → traceAll cond st ops = true → P (runTrace st ops) := by
  intro ops
  induction ops with
  | nil => intro st h _; simpa [runTrace] using h
  | cons op ops ih =>
    intro st h hall
    simp only [traceAll, Bool.and_eq_true] at hall
    simpa [runTrace] using ih (runOp st op) (step st op h hall.1) hall.2

theorem amount_empty : StakeState.empty.amount = 0 := rfl

theorem ledgerInv_step (st : State) (op : Op) (h : LedgerInv st)
    (hc : stakeFresh st op = true) : LedgerInv (runOp st op) := by
  obtain ⟨hmem, htot⟩ := h
  have hremove : ∀ o : AccountAddress,
      LedgerInv ⟨mapSet st.stake o StakeState.empty,
                 wsub st.total_staked (amountOf st o)⟩ := by
    intro o
    have key : sumAmounts (mapSet st.stake o StakeState.empty) + amountOf st o
        = sumAmounts st.stake + 0 := by
      simpa [amountOf, amount_empty] using
        sumAmounts_mapSet st.stake o StakeState.empty
    have hle := amountOf_le_sum st o
    have hlt : amountOf st o < U64 := amountOf_lt st o hmem
    constructor
    · intro q hq
      rcases mem_mapSet hq with rfl | hq'
      · simpa [amount_empty] using U64_pos
      · exact hmem q hq'
    · show wsub st.total_staked (amountOf st o)
        = sumAmounts (mapSet st.stake o StakeState.empty) % U64
      rw [htot]
      unfold wsub
      rw [U64_eq] at *
      omega
  cases op with
  | stake c p e =>
    rcases runOp_stake c p e st with heq | heq
    · rw [heq]; exact ⟨hmem, htot⟩
    · rw [heq]
      simp only [stakeFresh, Bool.and_eq_true, beq_iff_eq,
        decide_eq_true_eq] at hc
      obtain ⟨h0, hlt⟩ := hc
      have key : sumAmounts (mapSet st.stake p.owner
            ⟨p.amount, c.slotTimeMs⟩) + amountOf st p.owner
          = sumAmounts st.stake + p.amount := by
        simpa [amountOf] using
          sumAmounts_mapSet st.stake p.owner ⟨p.amount, c.slotTimeMs⟩
      constructor
      · intro q hq
        rcases mem_mapSet hq with rfl | hq'
        · exact hlt
        · exact hmem q hq'
      · show wadd st.total_staked p.amount
          = sumAmounts (mapSet st.stake p.owner
              ⟨p.amount, c.slotTimeMs⟩) % U64
        rw [htot]
        unfold wadd
        rw [U64_eq] at *
        omega
  | unstake c p e =>
    rw [runOp_unstake]
    split
    · exact hremove p.owner
    · exact ⟨hmem, htot⟩
  | claim c p e =>
    rw [runOp_claim]
    split
    · exact hremove p.owner
    · exact ⟨hmem, htot⟩

theorem boundInv_step (st : State) (op : Op) (h : BoundInv st)
    (hc : opNoOv st op = true) : BoundInv (runOp st op) := by
  obtain ⟨hle, hlt⟩ := h
  have hremove : ∀ o : AccountAddress,
      BoundInv ⟨mapSet st.stake o StakeState.empty,
                wsub st.total_staked (amountOf st o)⟩ := by
    intro o
    have key : sumAmounts (mapSet st.stake o StakeState.empty) + amountOf st o
        = sumAmounts st.stake + 0 := by
      simpa [amountOf, amount_empty] using
        sumAmounts_mapSet st.stake o StakeState.empty
    have hle2 := amountOf_le_sum st o
    constructor
    · show sumAmounts (mapSet st.stake o StakeState.empty)
        ≤ wsub st.total_staked (amountOf st o)
      unfold wsub
      rw [U64_eq] at *
      omega
    · show wsub st.total_staked (amountOf st o) < U64
      unfold wsub
      rw [U64_eq] at *
      omega
  cases op with
  | stake c p e =>
    rcases runOp_stake c p e st with heq | heq
    · rw [heq]; exact ⟨hle, hlt⟩
    · rw [heq]
      simp only [opNoOv, decide_eq_true_eq] at hc
      have key : sumAmounts (mapSet st.stake p.owner
            ⟨p.amount, c.slotTimeMs⟩) + amountOf st p.owner
          = sumAmounts st.stake + p.amount := by
        simpa [amountOf] using
          sumAmounts_mapSet st.stake p.owner ⟨p.amount, c.slotTimeMs⟩
      have hle2 := amountOf_le_sum st p.owner
      constructor
      · show sumAmounts (mapSet st.stake p.owner ⟨p.amount, c.slotTimeMs⟩)
          ≤ wadd st.total_staked p.amount
        unfold wadd
        rw [U64_eq] at *
        omega
      · show wadd st.total_staked p.amount < U64
        unfold wadd
        rw [U64_eq] at *
        omega
  | unstake c p e =>
    rw [runOp_unstake]
    split
    · exact hremove p.owner
    · exact ⟨hle, hlt⟩
  | claim c p e =>
    rw [runOp_claim]
    split
    · exact hremove p.owner
    · exact ⟨hle, hlt⟩

/-- Claim C1 (amended): for every sequence of stake/unstake/claim
operations from the empty initial state in which every stake targets an
owner whose recorded amount is currently zero (and stakes a `u64`
amount), after the sequence `total_staked` equals the sum over all owners
of the recorded staked amounts modulo `2^64` — exactly, whenever that sum
is below `2^64`.  The original claim fails on re-staking, because
`insert_token` overwrites the owner's amount while adding the whole new
amount to `total_staked` (see the counterexample). -/
theorem c1_total_staked_invariant (ops : List Op)
    (h : traceAll stakeFresh State.emptyState ops = true) :
    (runTrace State.emptyState ops).total_staked
      = sumAmounts (runTrace State.emptyState ops).stake % U64 ∧
    (sumAmounts (runTrace State.emptyState ops).stake < U64 →
      (runTrace State.emptyState ops).total_staked
        = sumAmounts (runTrace State.emptyState ops).stake) := by
  have base : LedgerInv State.emptyState := by
    constructor
    · intro p hp; simp [State.emptyState] at hp
    · simp [State.emptyState, sumAmounts]
  obtain ⟨hmem, htot⟩ :=
    traceAll_invariant stakeFresh ledgerInv_step ops State.emptyState base h
  exact ⟨htot, fun hlt => by rw [htot, Nat.mod_eq_of_lt hlt]⟩

/-- Claim C1 is false as stated: staking 100 and then 50 from the same
owner (all preconditions satisfied) leaves `total_staked = 150` while the
per-owner amounts sum to 50. -/
theorem c1_counterexample :
    ¬ ((runTrace State.emptyState
          [.stake (ctxAcc 1 0) ⟨1, 100, 7⟩ extAll,
           .stake (ctxAcc 1 0) ⟨1, 50, 7⟩ extAll]).total_staked
        = sumAmounts (runTrace State.emptyState
          [.stake (ctxAcc 1 0) ⟨1, 100, 7⟩ extAll,
           .stake (ctxAcc 1 0) ⟨1, 50, 7⟩ extAll]).stake) := by
  decide

/-- Witness for `c1_total_staked_invariant` on the concrete trace
stake(owner 1, 100) then unstake(owner 1). -/
theorem c1_witness :
    traceAll stakeFresh State.emptyState
        [.stake (ctxAcc 1 0) ⟨1, 100, 7⟩ extAll,
         .unstake (ctxAcc 1 1000) ⟨1, 7⟩ extAll] = true ∧
    ((runTrace State.emptyState
        [.stake (ctxAcc 1 0) ⟨1, 100, 7⟩ extAll,
         .unstake (ctxAcc 1 1000) ⟨1, 7⟩ extAll]).total_staked
       = sumAmounts (runTrace State.emptyState
        [.stake (ctxAcc 1 0) ⟨1, 100, 7⟩ extAll,
         .unstake (ctxAcc 1 1000) ⟨1, 7⟩ extAll]).stake % U64 ∧
     (sumAmounts (runTrace State.emptyState
        [.stake (ctxAcc 1 0) ⟨1, 100, 7⟩ extAll,
         .unstake (ctxAcc 1 1000) ⟨1, 7⟩ extAll]).stake < U64 →
      (runTrace State.emptyState
        [.stake (ctxAcc 1 0) ⟨1, 100, 7⟩ extAll,
         .unstake (ctxAcc 1 1000) ⟨1, 7⟩ extAll]).total_staked
        = sumAmounts (runTrace State.emptyState
        [.stake (ctxAcc 1 0) ⟨1, 100, 7⟩ extAll,
         .unstake (ctxAcc 1 1000) ⟨1, 7⟩ extAll]).stake)) :=
  ⟨by decide, c1_total_staked_invariant _ (by decide)⟩

/-- Claim C10 (amended): in every state reachable from the empty initial
state by stake/unstake/claim operations in which no stake pushes
`total_staked` past `2^64 - 1`, each owner's recorded amount is at most
`total_staked`, so the `u64` subtraction `total_staked -= owner_state.amount`
in `remove_token` is exact (never underflows).  Without that overflow
bound the original claim fails: wrapping of `total_staked += amount` can
leave a recorded amount above the aggregate (see the counterexample). -/
theorem c10_amount_le_total (ops : List Op) (o : AccountAddress)
    (h : traceAll opNoOv State.emptyState ops = true) :
    amountOf (runTrace State.emptyState ops) o
      ≤ (runTrace State.emptyState ops).total_staked ∧
    wsub (runTrace State.emptyState ops).total_staked
        (amountOf (runTrace State.emptyState ops) o)
      = (runTrace State.emptyState ops).total_staked
        - amountOf (runTrace State.emptyState ops) o := by
  have base : BoundInv State.emptyState := by
    constructor
    · simp [State.emptyState, sumAmounts]
    · simpa [State.emptyState] using U64_pos
  obtain ⟨hle, hlt⟩ :=
    traceAll_invariant opNoOv boundInv_step ops State.emptyState base h
  have h1 := amountOf_le_sum (runTrace State.emptyState ops) o
  constructor
  · omega
  · unfold wsub
    rw [U64_eq] at *
    omega

/-- Claim C10 is false as stated: staking `2^64 - 1` from owner 1 and
then 2 from owner 2 wraps `total_staked` to 1, leaving owner 1's recorded
amount far above the aggregate, so the removal subtraction would
underflow. -/
theorem c10_counterexample :
    ¬ (amountOf (runTrace State.emptyState
          [.stake (ctxAcc 1 0) ⟨1, U64 - 1, 7⟩ extAll,
           .stake (ctxAcc 2 0) ⟨2, 2, 7⟩ extAll]) 1
        ≤ (runTrace State.emptyState
          [.stake (ctxAcc 1 0) ⟨1, U64 - 1, 7⟩ extAll,
           .stake (ctxAcc 2 0) ⟨2, 2, 7⟩ extAll]).total_staked) := by
  decide

/-- Witness for `c10_amount_le_total` on the concrete trace
stake(owner 1, 100) then stake(owner 2, 30). -/
theorem c10_witness :
    traceAll opNoOv State.emptyState
        [.stake (ctxAcc 1 0) ⟨1, 100, 7⟩ extAll,
         .stake (ctxAcc 2 0) ⟨2, 30, 7⟩ extAll] = true ∧
    (amountOf (runTrace State.emptyState
        [.stake (ctxAcc 1 0) ⟨1, 100, 7⟩ extAll,
         .stake (ctxAcc 2 0) ⟨2, 30, 7⟩ extAll]) 1
      ≤ (runTrace State.emptyState
        [.stake (ctxAcc 1 0) ⟨1, 100, 7⟩ extAll,
         .stake (ctxAcc 2 0) ⟨2, 30, 7⟩ extAll]).total_staked ∧
     wsub (runTrace State.emptyState
        [.stake (ctxAcc 1 0) ⟨1, 100, 7⟩ extAll,
         .stake (ctxAcc 2 0) ⟨2, 30, 7⟩ extAll]).total_staked
        (amountOf (runTrace State.emptyState
        [.stake (ctxAcc 1 0) ⟨1, 100, 7⟩ extAll,
         .stake (ctxAcc 2 0) ⟨2, 30, 7⟩ extAll]) 1)
      = (runTrace State.emptyState
        [.stake (ctxAcc 1 0) ⟨1, 100, 7⟩ extAll,
         .stake (ctxAcc 2 0) ⟨2, 30, 7⟩ extAll]).total_staked
        - amountOf (runTrace State.emptyState
        [.stake (ctxAcc 1 0) ⟨1, 100, 7⟩ extAll,
         .stake (ctxAcc 2 0) ⟨2, 30, 7⟩ extAll]) 1) :=
  ⟨by decide, c10_amount_le_total _ 1 (by decide)⟩

/-- Claim C2 context: the source does pay a zero reward here.  After
stake(owner 1, amount 1000, slot time 0) and unstake at slot time
`31_536_000_000` ms (exactly one year later), the handler issues the
payout transfer with amount 0, not 1000: `remove_token` zeroes the stake
record before `calculate_reward` reads it.  The third conjunct shows the
reward the spec describes — computed on the pre-removal state — is
exactly 1000, so the ordering is the slip. -/
theorem c2_round_trip_pays_zero :
    (stake_token (ctxAcc 1 0) ⟨1, 1000, 7⟩ extAll State.emptyState).result
      = .ok () ∧
    (unstake_token (ctxAcc 1 31536000000) ⟨1, 7⟩ extAll
        (stake_token (ctxAcc 1 0) ⟨1, 1000, 7⟩ extAll
          State.emptyState).state).transfers
      = [⟨7, 0, 5, 1⟩] ∧
    (calculate_reward (ctxAcc 1 31536000000) 1
        (stake_token (ctxAcc 1 0) ⟨1, 1000, 7⟩ extAll
          State.emptyState).state).1 = 1000 := by
  decide

/-- Claim C7: the `claim` handler and the `unstake` handler agree on
every context, parameter pair, external-call response and ledger state:
same result, same final ledger state, same payout transfer. -/
theorem c7_claim_unstake_equiv (c : Ctx) (e : ExtCalls) (st : State)
    (o : AccountAddress) (t : ContractAddress) :
    claim_reward c ⟨o, t⟩ e st = unstake_token c ⟨o, t⟩ e st := rfl

/-- Claim C4: whenever the sender is not the account named as owner in
the request, each of the three handlers rejects with `Unauthorized`,
leaves the ledger untouched and issues no transfer, for every other
parameter value and every external response. -/
theorem c4_unauthorized_no_mutation (c : Ctx) (e : ExtCalls) (st : State) :
    (∀ p : StakeParams, c.sender ≠ .account p.owner →
      stake_token c p e st = ⟨.error .unauthorized, st, []⟩) ∧
    (∀ p : UnStakeParams, c.sender ≠ .account p.owner →
      unstake_token c p e st = ⟨.error .unauthorized, st, []⟩) ∧
    (∀ p : ClaimParams, c.sender ≠ .account p.owner →
      claim_reward c p e st = ⟨.error .unauthorized, st, []⟩) := by
  have hm : ∀ o : AccountAddress, c.sender ≠ .account o →
      c.sender.matchesAccount o = false := by
    intro o ho
    cases hs : c.sender with
    | account a =>
      have ha : a ≠ o := by
        intro hao
        exact ho (by rw [hs, hao])
      simpa [Address.matchesAccount] using ha
    | contract a => simp [Address.matchesAccount]
  refine ⟨fun p hp => ?_, fun p hp => ?_, fun p hp => ?_⟩
  · simp [stake_token, hm p.owner hp]
  · simp [unstake_token, hm p.owner hp]
  · simp [claim_reward, hm p.owner hp]

/-- Witness for `c4_unauthorized_no_mutation`: account 2 attempting to
stake for owner 1 is rejected with no mutation. -/
theorem c4_witness :
    stake_token (ctxAcc 2 0) ⟨1, 100, 7⟩ extAll State.emptyState
      = ⟨.error .unauthorized, State.emptyState, []⟩ :=
  (c4_unauthorized_no_mutation (ctxAcc 2 0) extAll State.emptyState).1
    ⟨1, 100, 7⟩ (by decide)

/-- Claim C5: `stake_token` checks in the order authorize, balance,
operator, insert.  For an authorized caller: an insufficient first
balance answer fails with `NoBalance` and no mutation, whatever the
operator answer; a sufficient balance followed by a `false` operator
answer fails with `NotOperator` and no mutation; a success implies both
checks passed and exactly the `insert_token` mutation happened; any
non-success leaves the ledger unchanged. -/
theorem c5_stake_check_order (c : Ctx) (e : ExtCalls) (st : State)
    (p : StakeParams) (hauth : c.sender = .account p.owner) :
    (∀ b l, e.balanceOf = .ok (b :: l) → b < p.amount →
      stake_token c p e st = ⟨.error (.custom .noBalance), st, []⟩) ∧
    (∀ b l l2, e.balanceOf = .ok (b :: l) → p.amount ≤ b →
      e.operatorOf = .ok (false :: l2) →
      stake_token c p e st = ⟨.error (.custom .notOperator), st, []⟩) ∧
    ((stake_token c p e st).result = .ok () →
      ensure_balance e p.amount = .ok () ∧ ensure_is_operator e = .ok () ∧
      (stake_token c p e st).state
        = ⟨mapSet st.stake p.owner ⟨p.amount, c.slotTimeMs⟩,
           wadd st.total_staked p.amount⟩) ∧
    ((stake_token c p e st).result ≠ .ok () →
      (stake_token c p e st).state = st) := by
  have hm : c.sender.matchesAccount p.owner = true := by
    rw [hauth]; simp [Address.matchesAccount]
  refine ⟨?_, ?_, ?_, ?_⟩
  · intro b l hb hlt
    simp [stake_token, hm, ensure_balance, Cis2Client.has_balance, hb,
      not_le.mpr hlt]
  · intro b l l2 hb hge hop
    simp [stake_token, hm, ensure_balance, Cis2Client.has_balance, hb, hge,
      ensure_is_operator, Cis2Client.is_operator_of, hop]
  · intro hres
    cases hb : ensure_balance e p.amount with
    | error er => simp [stake_token, hm, hb] at hres
    | ok u =>
      cases ho : ensure_is_operator e with
      | error er => simp [stake_token, hm, hb, ho] at hres
      | ok u2 =>
        refine ⟨rfl, rfl, ?_⟩
        simp [stake_token, State.insert_token, hm, hb, ho]
  · intro hres
    cases hb : ensure_balance e p.amount with
    | error er => simp [stake_token, hm, hb]
    | ok u =>
      cases ho : ensure_is_operator e with
      | error er => simp [stake_token, hm, hb, ho]
      | ok u2 =>
        exact absurd (by simp [stake_token, State.insert_token, hm, hb, ho])
          hres

/-- Witness for `c5_stake_check_order`: balance 5 against a requested
stake of 100 is rejected with `NoBalance` and no mutation. -/
theorem c5_witness :
    stake_token (ctxAcc 1 0) ⟨1, 100, 7⟩ ⟨.ok [true], .ok [5], .ok ()⟩
        State.emptyState
      = ⟨.error (.custom .noBalance), State.emptyState, []⟩ :=
  (c5_stake_check_order (ctxAcc 1 0) ⟨.ok [true], .ok [5], .ok ()⟩
    State.emptyState ⟨1, 100, 7⟩ rfl).1 5 [] rfl (by decide)

/-- Claim C3 (amended): in every handler a failure before the payout
transfer aborts with an error and with the ledger unchanged and no
transfer issued; but a failure of the reward payout transfer itself in
unstake/claim is ignored — the source drops the `Cis2Client::transfer`
result, so an authorized unstake/claim returns success whatever the
transfer outcome (the counterexample shows the original claim false). -/
theorem c3_abort_semantics (c : Ctx) (e : ExtCalls) (st : State) :
    (∀ p : StakeParams, (stake_token c p e st).result ≠ .ok () →
      (stake_token c p e st).state = st ∧
      (stake_token c p e st).transfers = []) ∧
    (∀ p : UnStakeParams, (unstake_token c p e st).result ≠ .ok () →
      (unstake_token c p e st).state = st ∧
      (unstake_token c p e st).transfers = []) ∧
    (∀ p : ClaimParams, (claim_reward c p e st).result ≠ .ok () →
      (claim_reward c p e st).state = st ∧
      (claim_reward c p e st).transfers = []) ∧
    (∀ p : UnStakeParams, c.sender = .account p.owner →
      (unstake_token c p e st).result = .ok ()) ∧
    (∀ p : ClaimParams, c.sender = .account p.owner →
      (claim_reward c p e st).result = .ok ()) := by
  have hm : ∀ o : AccountAddress, c.sender = .account o →
      c.sender.matchesAccount o = true := by
    intro o ho
    rw [ho]; simp [Address.matchesAccount]
  refine ⟨fun p hres => ?_, fun p hres => ?_, fun p hres => ?_,
    fun p hp => ?_, fun p hp => ?_⟩
  · by_cases h : c.sender.matchesAccount p.owner
    · cases hb : ensure_balance e p.amount with
      | error er => simp [stake_token, h, hb]
      | ok u =>
        cases ho : ensure_is_operator e with
        | error er => simp [stake_token, h, hb, ho]
        | ok u2 =>
          exact absurd (by simp [stake_token, State.insert_token, h, hb, ho])
            hres
    · simp [stake_token, h]
  · rw [unstake_token_eq] at hres ⊢
    by_cases h : c.sender.matchesAccount p.owner
    · simp [h] at hres
    · simp [h]
  · rw [claim_reward_eq_unstake, unstake_token_eq] at hres ⊢
    by_cases h : c.sender.matchesAccount p.owner
    · simp [h] at hres
    · simp [h]
  · rw [unstake_token_eq]
    simp [hm p.owner hp]
  · rw [claim_reward_eq_unstake, unstake_token_eq]
    simp [hm p.owner hp]

/-- Claim C3 is false as stated for the payout step: with a failing
transfer response, an authorized unstake still returns `Ok` and its
ledger mutation stands. -/
theorem c3_counterexample :
    Cis2Client.transfer ⟨.ok [true], .ok [1000], .error .invokeContractError⟩
      = .error .invokeContractError ∧
    (unstake_token (ctxAcc 1 1000) ⟨1, 7⟩
        ⟨.ok [true], .ok [1000], .error .invokeContractError⟩
        ⟨[(1, ⟨100, 0⟩)], 100⟩).result = .ok () ∧
    (unstake_token (ctxAcc 1 1000) ⟨1, 7⟩
        ⟨.ok [true], .ok [1000], .error .invokeContractError⟩
        ⟨[(1, ⟨100, 0⟩)], 100⟩).state ≠ ⟨[(1, ⟨100, 0⟩)], 100⟩ := by
  decide

/-- Witness for `c3_abort_semantics`: an authorized unstake against a
transfer that fails with `ParseResult` still returns success. -/
theorem c3_witness :
    (unstake_token (ctxAcc 1 0) ⟨1, 7⟩ ⟨.ok [true], .ok [7], .error .parseResult⟩
        State.emptyState).result = .ok () :=
  (c3_abort_semantics (ctxAcc 1 0) ⟨.ok [true], .ok [7], .error .parseResult⟩
    State.emptyState).2.2.2.1 ⟨1, 7⟩ rfl

/-- Claim C8: for any record whose `staked_start_at` does not exceed the
current time (a `u64`), `get_time` returns the millisecond delta divided
by 1000, and the `u64` subtraction inside it is exact (no underflow). -/
theorem c8_get_time_elapsed (st : State) (o : AccountAddress) (now : Nat)
    (h1 : now < U64) (h2 : startOf st o ≤ now) :
    (st.get_time o now).1 = (now - startOf st o) / 1000 ∧
    wsub now (startOf st o) = now - startOf st o := by
  have key : wsub now (startOf st o) = now - startOf st o := by
    unfold wsub
    rw [U64_eq] at *
    omega
  refine ⟨?_, key⟩
  show wsub now (startOf st o) / 1000 = (now - startOf st o) / 1000
  rw [key]

/-- Witness for `c8_get_time_elapsed`: a record staked at 5000 ms read at
12345 ms yields (12345 - 5000) / 1000 elapsed seconds. -/
theorem c8_witness :
    (State.get_time ⟨[(1, ⟨100, 5000⟩)], 100⟩ 1 12345).1
      = (12345 - startOf ⟨[(1, ⟨100, 5000⟩)], 100⟩ 1) / 1000 ∧
    wsub 12345 (startOf ⟨[(1, ⟨100, 5000⟩)], 100⟩ 1)
      = 12345 - startOf ⟨[(1, ⟨100, 5000⟩)], 100⟩ 1 :=
  c8_get_time_elapsed ⟨[(1, ⟨100, 5000⟩)], 100⟩ 1 12345 (by decide) (by decide)

/-- Claim C9: an authorized unstake or claim for an owner with no active
stake (recorded amount zero or no record at all) succeeds: the owner's
record is (re)set to the zero record, `total_staked` is unchanged, and
the payout transfer is issued with amount 0. -/
theorem c9_unstake_claim_never_staked (c : Ctx) (e : ExtCalls) (st : State)
    (o : AccountAddress) (t : ContractAddress) (hs : c.sender = .account o)
    (h0 : amountOf st o = 0) (hT : st.total_staked < U64) :
    unstake_token c ⟨o, t⟩ e st
      = ⟨.ok (), ⟨mapSet st.stake o StakeState.empty, st.total_staked⟩,
         [⟨t, 0, c.ctxOwner, c.invoker⟩]⟩ ∧
    claim_reward c ⟨o, t⟩ e st
      = ⟨.ok (), ⟨mapSet st.stake o StakeState.empty, st.total_staked⟩,
         [⟨t, 0, c.ctxOwner, c.invoker⟩]⟩ := by
  have hm : c.sender.matchesAccount o = true := by
    rw [hs]; simp [Address.matchesAccount]
  have hw : wsub st.total_staked (amountOf st o) = st.total_staked := by
    rw [h0]
    unfold wsub
    rw [U64_eq] at *
    omega
  constructor
  · rw [unstake_token_eq]
    simp [hm, hw]
  · rw [claim_reward_eq_unstake, unstake_token_eq]
    simp [hm, hw]

/-- Witness for `c9_unstake_claim_never_staked`: account 3, never staked,
unstakes and claims against the empty ledger. -/
theorem c9_witness :
    unstake_token (ctxAcc 3 500) ⟨3, 7⟩ extAll State.emptyState
      = ⟨.ok (), ⟨[(3, StakeState.empty)], 0⟩, [⟨7, 0, 5, 3⟩]⟩ ∧
    claim_reward (ctxAcc 3 500) ⟨3, 7⟩ extAll State.emptyState
      = ⟨.ok (), ⟨[(3, StakeState.empty)], 0⟩, [⟨7, 0, 5, 3⟩]⟩ :=
  c9_unstake_claim_never_staked (ctxAcc 3 500) extAll State.emptyState 3 7
    rfl (by decide) (by decide)

/-- Claim C6 (amended): whenever the product of the recorded principal
and the elapsed seconds fits in a `u64`, `get_reward` returns
`principal * elapsed / 31_536_000` (floor division) and is non-decreasing
in the elapsed time; without that bound the `u64` product wraps and both
parts fail (see the counterexample). -/
theorem c6_reward_formula (st : State) (o : AccountAddress) (t1 t2 : Nat)
    (h12 : t1 ≤ t2) (hov : amountOf st o * t2 < U64) :
    (st.get_reward o t2).1 = amountOf st o * t2 / SECOND_PER_YEAR ∧
    (st.get_reward o t1).1 ≤ (st.get_reward o t2).1 := by
  have h1 : amountOf st o * t1 < U64 :=
    lt_of_le_of_lt (Nat.mul_le_mul_left _ h12) hov
  have e2 : (st.get_reward o t2).1 = amountOf st o * t2 / SECOND_PER_YEAR := by
    show wmul (amountOf st o) t2 / SECOND_PER_YEAR = _
    unfold wmul
    rw [Nat.mod_eq_of_lt hov]
  have e1 : (st.get_reward o t1).1 = amountOf st o * t1 / SECOND_PER_YEAR := by
    show wmul (amountOf st o) t1 / SECOND_PER_YEAR = _
    unfold wmul
    rw [Nat.mod_eq_of_lt h1]
  refine ⟨e2, ?_⟩
  rw [e1, e2]
  exact Nat.div_le_div_right (Nat.mul_le_mul_left _ h12)

/-- Claim C6 is false as stated: with principal `2^32` and elapsed time
`2^32` seconds the `u64` product wraps to 0, so the computed reward is 0
instead of `floor(2^64 / 31_536_000)`. -/
theorem c6_counterexample :
    ¬ ((State.get_reward ⟨[(1, ⟨2 ^ 32, 0⟩)], 2 ^ 32⟩ 1 (2 ^ 32)).1
        = 2 ^ 32 * 2 ^ 32 / SECOND_PER_YEAR) := by
  decide

/-- Witness for `c6_reward_formula`: principal 1000 over a full year
yields exactly 1000, at least as much as at elapsed time 0. -/
theorem c6_witness :
    (State.get_reward ⟨[(1, ⟨1000, 0⟩)], 1000⟩ 1 31536000).1
      = amountOf ⟨[(1, ⟨1000, 0⟩)], 1000⟩ 1 * 31536000 / SECOND_PER_YEAR ∧
    (State.get_reward ⟨[(1, ⟨1000, 0⟩)], 1000⟩ 1 0).1
      ≤ (State.get_reward ⟨[(1, ⟨1000, 0⟩)], 1000⟩ 1 31536000).1 :=
  c6_reward_formula ⟨[(1, ⟨1000, 0⟩)], 1000⟩ 1 0 31536000 (by decide)
    (by decide)
